import Mathlib

/-!
Verification of the geometric classifier of HandTracking-DangerDetection.

The development shallowly embeds `src/state_logic.py` (the functions
`distance_point_to_rect` and `classify_state`) and the rectangle-moving
keyboard handler of `src/main.py`.  Python floats are modelled as real
numbers, the three state strings as the inductive type `HState`, and the
WASD handler as a step function on an integer rectangle state.
-/

namespace HandTracking

/-- The three state strings of `state_logic.py`: 'SAFE', 'WARNING', 'DANGER'. -/
inductive HState where
  | SAFE
  | WARNING
  | DANGER
deriving DecidableEq

/-- Python's `math.hypot x y = sqrt (x^2 + y^2)`. -/
noncomputable def hypot (x y : ℝ) : ℝ := Real.sqrt (x ^ 2 + y ^ 2)

/-- Embedding of `distance_point_to_rect` (`state_logic.py` lines 22-57).
The branch structure mirrors the source: inside check (edges included),
vertical gap, horizontal gap, then the fold of `min` over the four corner
distances in the source's list order
`[(rx1, ry1), (rx1, ry2), (rx2, ry1), (rx2, ry2)]`.  The `float(...)`
conversions are identities on reals. -/
noncomputable def distance_point_to_rect (pt : ℝ × ℝ) (rect : ℝ × ℝ × ℝ × ℝ) : ℝ :=
  match pt, rect with
  | (cx, cy), (rx1, ry1, rx2, ry2) =>
    if (rx1 ≤ cx ∧ cx ≤ rx2) ∧ (ry1 ≤ cy ∧ cy ≤ ry2) then 0
    else if rx1 ≤ cx ∧ cx ≤ rx2 then
      (if cy < ry1 then ry1 - cy else cy - ry2)
    else if ry1 ≤ cy ∧ cy ≤ ry2 then
      (if cx < rx1 then rx1 - cx else cx - rx2)
    else
      min (min (min (hypot (cx - rx1) (cy - ry1)) (hypot (cx - rx1) (cy - ry2)))
          (hypot (cx - rx2) (cy - ry1)))
        (hypot (cx - rx2) (cy - ry2))

/-- The reference point-to-rectangle distance of the specification: the
Euclidean distance from the point to its nearest point of the rectangle,
obtained by clamping each coordinate into the rectangle's span
(`clamp x a b = max a (min x b)`).  Stated from the spec's words; compared
with the four-branch `distance_point_to_rect` of the source. -/
noncomputable def distToRectNearest (pt : ℝ × ℝ) (rect : ℝ × ℝ × ℝ × ℝ) : ℝ :=
  match pt, rect with
  | (cx, cy), (rx1, ry1, rx2, ry2) =>
    hypot (cx - max rx1 (min cx rx2)) (cy - max ry1 (min cy ry2))

/-- Embedding of `classify_state` (`state_logic.py` lines 60-88) for a real
distance argument (`d = float(distance)` is the identity on a real). -/
noncomputable def classify_state (d : ℝ) (hand_present : Bool) : HState :=
  if hand_present = false then HState.SAFE
  else if d = 0 ∨ d ≤ 60 then HState.DANGER
  else if 60 < d ∧ d ≤ 120 then HState.WARNING
  else if 120 < d then HState.SAFE
  else HState.SAFE

/-- Embedding of `classify_state` that also covers an absent distance
(Python `None`): when the hand is absent the function returns before
touching `distance`; when the hand is present, `d = float(None)` would
raise, modelled as `Except.error`. -/
noncomputable def classify_state_opt (distance : Option ℝ) (hand_present : Bool) :
    Except Unit HState :=
  if hand_present = false then Except.ok HState.SAFE
  else
    match distance with
    | none => Except.error ()
    | some d =>
      Except.ok
        (if d = 0 ∨ d ≤ 60 then HState.DANGER
         else if 60 < d ∧ d ≤ 120 then HState.WARNING
         else if 120 < d then HState.SAFE
         else HState.SAFE)

/-- `HState` with the defensive trailing `return 'SAFE'` of `classify_state`
kept distinguishable as `FALLBACK`. -/
inductive HStateF where
  | SAFE
  | WARNING
  | DANGER
  | FALLBACK
deriving DecidableEq

/-- Instrumented embedding of `classify_state`: identical branch structure,
but the trailing defensive `return 'SAFE'` (line 88) is tagged `FALLBACK`. -/
noncomputable def classify_state_instr (d : ℝ) (hand_present : Bool) : HStateF :=
  if hand_present = false then HStateF.SAFE
  else if d = 0 ∨ d ≤ 60 then HStateF.DANGER
  else if 60 < d ∧ d ≤ 120 then HStateF.WARNING
  else if 120 < d then HStateF.SAFE
  else HStateF.FALLBACK

/-- Forgetting the instrumentation: `FALLBACK` was the value `'SAFE'`. -/
def eraseFallback : HStateF → HState
  | HStateF.SAFE => HState.SAFE
  | HStateF.WARNING => HState.WARNING
  | HStateF.DANGER => HState.DANGER
  | HStateF.FALLBACK => HState.SAFE

/-- The per-frame state computation of `main.py` lines 74-79: on
`centroid is None` it assigns `'SAFE'` directly, otherwise it calls
`classify_state(distance_point_to_rect(centroid, rect), hand_present=True)`. -/
noncomputable def mainFrameState (centroid : Option (ℝ × ℝ)) (rect : ℝ × ℝ × ℝ × ℝ) : HState :=
  match centroid with
  | none => HState.SAFE
  | some c => classify_state (distance_point_to_rect c rect) true

/-- The uniform computation the claim describes: always call `classify_state`
with `hand_present = (centroid is not None)`; the distance passed in the
absent case is an arbitrary value `dAbsent`. -/
noncomputable def uniformFrameState (centroid : Option (ℝ × ℝ)) (rect : ℝ × ℝ × ℝ × ℝ)
    (dAbsent : ℝ) : HState :=
  classify_state
    (match centroid with
     | none => dAbsent
     | some c => distance_point_to_rect c rect)
    centroid.isSome

/-- The rectangle state of `main.py`: the four mutable coordinate variables
`rect_x1, rect_y1, rect_x2, rect_y2` (integer pixel values). -/
structure RectState where
  x1 : ℤ
  y1 : ℤ
  x2 : ℤ
  y2 : ℤ
deriving DecidableEq

/-- `clamp` from `main.py` lines 25-26: `max(vmin, min(vmax, val))`. -/
def clamp (val vmin vmax : ℤ) : ℤ := max vmin (min vmax val)

/-- `FRAME_W` of `main.py`. -/
def FRAME_W : ℤ := 640

/-- `FRAME_H` of `main.py`. -/
def FRAME_H : ℤ := 480

/-- The four rectangle-moving keys of `main.py` (W=up, S=down, A=left,
D=right). -/
inductive MoveKey where
  | w
  | a
  | s
  | d
deriving DecidableEq

/-- One W/A/S/D keypress (`main.py` lines 139-159): shift both coordinates of
one axis by `step = 10`, then clamp `x1` into `[0, FRAME_W - 1]`, `x2` into
`[1, FRAME_W]`, `y1` into `[0, FRAME_H - 1]`, `y2` into `[1, FRAME_H]`. -/
def moveRect (r : RectState) (k : MoveKey) : RectState :=
  let step : ℤ := 10
  let moved : RectState :=
    match k with
    | MoveKey.w => ⟨r.x1, r.y1 - step, r.x2, r.y2 - step⟩
    | MoveKey.s => ⟨r.x1, r.y1 + step, r.x2, r.y2 + step⟩
    | MoveKey.a => ⟨r.x1 - step, r.y1, r.x2 - step, r.y2⟩
    | MoveKey.d => ⟨r.x1 + step, r.y1, r.x2 + step, r.y2⟩
  ⟨clamp moved.x1 0 (FRAME_W - 1), clamp moved.y1 0 (FRAME_H - 1),
    clamp moved.x2 1 FRAME_W, clamp moved.y2 1 FRAME_H⟩

/-- The initial rectangle of `main.py` lines 34-35: `(220, 140, 420, 340)`. -/
def initialRect : RectState := ⟨220, 140, 420, 340⟩

/-- Folding a finite sequence of keypresses over a rectangle state. -/
def applyKeys (r : RectState) (ks : List MoveKey) : RectState := ks.foldl moveRect r

/-- The structural invariant of the spec (`x2 > x1`, `y2 > y1`) together with
the frame bounds the clamping enforces. -/
def rectInvariant (r : RectState) : Prop :=
  0 ≤ r.x1 ∧ r.x1 ≤ FRAME_W - 1 ∧ 1 ≤ r.x2 ∧ r.x2 ≤ FRAME_W ∧ r.x1 < r.x2 ∧
  0 ≤ r.y1 ∧ r.y1 ≤ FRAME_H - 1 ∧ 1 ≤ r.y2 ∧ r.y2 ≤ FRAME_H ∧ r.y1 < r.y2

/-- A call to one of the two functions of `state_logic.py`, with its
arguments. -/
inductive TraceCall where
  | distCall (pt : ℝ × ℝ) (rect : ℝ × ℝ × ℝ × ℝ)
  | classifyCall (d : ℝ) (hp : Bool)

/-- The value such a call returns. -/
inductive TraceRet where
  | retDist (r : ℝ)
  | retState (s : HState)

/-- Executing one call: both functions read nothing but their explicit
arguments (they are closed terms over those arguments), so a call's result is
a function of the call alone. -/
noncomputable def execCall : TraceCall → TraceRet
  | TraceCall.distCall pt rect => TraceRet.retDist (distance_point_to_rect pt rect)
  | TraceCall.classifyCall d hp => TraceRet.retState (classify_state d hp)

/-- Executing an arbitrary interleaved sequence of calls to the two
functions, in order. -/
noncomputable def execTrace (cs : List TraceCall) : List TraceRet := cs.map execCall

end HandTracking

namespace HandTracking

lemma hypot_zero_left (y : ℝ) : hypot 0 y = |y| := by
  unfold hypot
  rw [show (0 : ℝ) ^ 2 + y ^ 2 = y ^ 2 by ring, Real.sqrt_sq_eq_abs]

lemma hypot_zero_right (x : ℝ) : hypot x 0 = |x| := by
  unfold hypot
  rw [show x ^ 2 + (0 : ℝ) ^ 2 = x ^ 2 by ring, Real.sqrt_sq_eq_abs]

lemma hypot_neg_left (x y : ℝ) : hypot (-x) y = hypot x y := by
  unfold hypot
  rw [show (-x) ^ 2 = x ^ 2 by ring]

lemma hypot_neg_right (x y : ℝ) : hypot x (-y) = hypot x y := by
  unfold hypot
  rw [show (-y) ^ 2 = y ^ 2 by ring]

lemma hypot_le_hypot (a b c e : ℝ) (h1 : |a| ≤ |c|) (h2 : |b| ≤ |e|) :
    hypot a b ≤ hypot c e := by
  unfold hypot
  apply Real.sqrt_le_sqrt
  have ha : a ^ 2 ≤ c ^ 2 := by
    rw [← sq_abs a, ← sq_abs c]
    exact pow_le_pow_left₀ (abs_nonneg _) h1 2
  have hb : b ^ 2 ≤ e ^ 2 := by
    rw [← sq_abs b, ← sq_abs e]
    exact pow_le_pow_left₀ (abs_nonneg _) h2 2
  linarith

lemma hypot_eq_zero_iff (x y : ℝ) : hypot x y = 0 ↔ x = 0 ∧ y = 0 := by
  unfold hypot
  rw [Real.sqrt_eq_zero (by positivity)]
  constructor
  · intro h
    constructor <;> nlinarith [sq_nonneg x, sq_nonneg y]
  · rintro ⟨rfl, rfl⟩
    ring

lemma clamp_of_mem (a b x : ℝ) (h1 : a ≤ x) (h2 : x ≤ b) : max a (min x b) = x := by
  rw [min_eq_left h2, max_eq_right h1]

lemma clamp_of_lt (a b x : ℝ) (hab : a ≤ b) (h : x < a) : max a (min x b) = a := by
  rw [min_eq_left (le_trans h.le hab), max_eq_left h.le]

lemma clamp_of_gt (a b x : ℝ) (hab : a ≤ b) (h : b < x) : max a (min x b) = b := by
  rw [min_eq_right h.le, max_eq_right hab]

lemma clamp_fixed_iff (a b x : ℝ) (hab : a ≤ b) :
    x - max a (min x b) = 0 ↔ a ≤ x ∧ x ≤ b := by
  rw [sub_eq_zero]
  constructor
  · intro h
    rcases lt_or_le x a with hxa | hxa
    · rw [clamp_of_lt a b x hab hxa] at h
      exact absurd h (ne_of_lt hxa)
    · rcases le_or_lt x b with hxb | hxb
      · exact ⟨hxa, hxb⟩
      · rw [clamp_of_gt a b x hab hxb] at h
        exact absurd h.symm (ne_of_lt hxb)
  · rintro ⟨h1, h2⟩
    exact (clamp_of_mem a b x h1 h2).symm

lemma clamp_comm (a b x : ℝ) (hab : a ≤ b) : min b (max x a) = max a (min x b) := by
  rcases le_or_lt x a with h | h
  · rw [max_eq_right h, min_eq_right hab, min_eq_left (h.trans hab), max_eq_left h]
  · rcases le_or_lt x b with h2 | h2
    · rw [max_eq_left h.le, min_eq_right h2, min_eq_left h2, max_eq_right h.le]
    · rw [max_eq_left h.le, min_eq_left h2.le, min_eq_right h2.le, max_eq_right hab]

lemma min4_first (d1 d2 d3 d4 : ℝ) (h2 : d1 ≤ d2) (h3 : d1 ≤ d3) (h4 : d1 ≤ d4) :
    min (min (min d1 d2) d3) d4 = d1 := by
  rw [min_eq_left h2, min_eq_left h3, min_eq_left h4]

lemma min4_second (d1 d2 d3 d4 : ℝ) (h1 : d2 ≤ d1) (h3 : d2 ≤ d3) (h4 : d2 ≤ d4) :
    min (min (min d1 d2) d3) d4 = d2 := by
  rw [min_eq_right h1, min_eq_left h3, min_eq_left h4]

lemma min4_third (d1 d2 d3 d4 : ℝ) (h1 : d3 ≤ d1) (h2 : d3 ≤ d2) (h4 : d3 ≤ d4) :
    min (min (min d1 d2) d3) d4 = d3 := by
  rw [min_eq_right (le_min h1 h2), min_eq_left h4]

lemma min4_fourth (d1 d2 d3 d4 : ℝ) (h1 : d4 ≤ d1) (h2 : d4 ≤ d2) (h3 : d4 ≤ d3) :
    min (min (min d1 d2) d3) d4 = d4 :=
  min_eq_right (le_min (le_min h1 h2) h3)

lemma abs_sub_le_of_lt_left (c a b : ℝ) (hca : c < a) (hab : a ≤ b) :
    |c - a| ≤ |c - b| := by
  rw [abs_of_neg (by linarith), abs_of_neg (by linarith)]
  linarith

lemma abs_sub_le_of_lt_right (c a b : ℝ) (hbc : b < c) (hab : a ≤ b) :
    |c - b| ≤ |c - a| := by
  rw [abs_of_pos (by linarith), abs_of_pos (by linarith)]
  linarith

/-- The four-branch distance of the source agrees with the reference
nearest-point (clamping) distance on every valid rectangle. -/
lemma dist_eq_nearest (cx cy rx1 ry1 rx2 ry2 : ℝ) (hx : rx1 ≤ rx2) (hy : ry1 ≤ ry2) :
    distance_point_to_rect (cx, cy) (rx1, ry1, rx2, ry2)
      = distToRectNearest (cx, cy) (rx1, ry1, rx2, ry2) := by
  simp only [distance_point_to_rect, distToRectNearest]
  split_ifs with hin hA hy1 hB hx1
  · rw [clamp_of_mem rx1 rx2 cx hin.1.1 hin.1.2, clamp_of_mem ry1 ry2 cy hin.2.1 hin.2.2,
      sub_self, sub_self, hypot_zero_left]
    simp
  · rw [clamp_of_mem rx1 rx2 cx hA.1 hA.2, clamp_of_lt ry1 ry2 cy hy hy1, sub_self,
      hypot_zero_left, abs_of_neg (by linarith : cy - ry1 < 0)]
    ring
  · have hcy : ry2 < cy := not_le.mp fun h => hin ⟨hA, not_lt.mp hy1, h⟩
    rw [clamp_of_mem rx1 rx2 cx hA.1 hA.2, clamp_of_gt ry1 ry2 cy hy hcy, sub_self,
      hypot_zero_left, abs_of_pos (by linarith : 0 < cy - ry2)]
  · rw [clamp_of_lt rx1 rx2 cx hx hx1, clamp_of_mem ry1 ry2 cy hB.1 hB.2, sub_self,
      hypot_zero_right, abs_of_neg (by linarith : cx - rx1 < 0)]
    ring
  · have hcx : rx2 < cx := not_le.mp fun h => hA ⟨not_lt.mp hx1, h⟩
    rw [clamp_of_gt rx1 rx2 cx hx hcx, clamp_of_mem ry1 ry2 cy hB.1 hB.2, sub_self,
      hypot_zero_right, abs_of_pos (by linarith : 0 < cx - rx2)]
  · have hxout : cx < rx1 ∨ rx2 < cx := by
      rcases lt_or_le cx rx1 with h | h
      · exact Or.inl h
      · exact Or.inr (not_le.mp fun hb => hA ⟨h, hb⟩)
    have hyout : cy < ry1 ∨ ry2 < cy := by
      rcases lt_or_le cy ry1 with h | h
      · exact Or.inl h
      · exact Or.inr (not_le.mp fun hb => hB ⟨h, hb⟩)
    rcases hxout with hcx | hcx <;> rcases hyout with hcy | hcy
    · rw [clamp_of_lt rx1 rx2 cx hx hcx, clamp_of_lt ry1 ry2 cy hy hcy]
      exact min4_first _ _ _ _
        (hypot_le_hypot _ _ _ _ (le_refl _) (abs_sub_le_of_lt_left cy ry1 ry2 hcy hy))
        (hypot_le_hypot _ _ _ _ (abs_sub_le_of_lt_left cx rx1 rx2 hcx hx) (le_refl _))
        (hypot_le_hypot _ _ _ _ (abs_sub_le_of_lt_left cx rx1 rx2 hcx hx)
          (abs_sub_le_of_lt_left cy ry1 ry2 hcy hy))
    · rw [clamp_of_lt rx1 rx2 cx hx hcx, clamp_of_gt ry1 ry2 cy hy hcy]
      exact min4_second _ _ _ _
        (hypot_le_hypot _ _ _ _ (le_refl _) (abs_sub_le_of_lt_right cy ry1 ry2 hcy hy))
        (hypot_le_hypot _ _ _ _ (abs_sub_le_of_lt_left cx rx1 rx2 hcx hx)
          (abs_sub_le_of_lt_right cy ry1 ry2 hcy hy))
        (hypot_le_hypot _ _ _ _ (abs_sub_le_of_lt_left cx rx1 rx2 hcx hx) (le_refl _))
    · rw [clamp_of_gt rx1 rx2 cx hx hcx, clamp_of_lt ry1 ry2 cy hy hcy]
      exact min4_third _ _ _ _
        (hypot_le_hypot _ _ _ _ (abs_sub_le_of_lt_right cx rx1 rx2 hcx hx) (le_refl _))
        (hypot_le_hypot _ _ _ _ (abs_sub_le_of_lt_right cx rx1 rx2 hcx hx)
          (abs_sub_le_of_lt_left cy ry1 ry2 hcy hy))
        (hypot_le_hypot _ _ _ _ (le_refl _) (abs_sub_le_of_lt_left cy ry1 ry2 hcy hy))
    · rw [clamp_of_gt rx1 rx2 cx hx hcx, clamp_of_gt ry1 ry2 cy hy hcy]
      exact min4_fourth _ _ _ _
        (hypot_le_hypot _ _ _ _ (abs_sub_le_of_lt_right cx rx1 rx2 hcx hx)
          (abs_sub_le_of_lt_right cy ry1 ry2 hcy hy))
        (hypot_le_hypot _ _ _ _ (abs_sub_le_of_lt_right cx rx1 rx2 hcx hx) (le_refl _))
        (hypot_le_hypot _ _ _ _ (le_refl _) (abs_sub_le_of_lt_right cy ry1 ry2 hcy hy))

/-- The nearest-point distance vanishes exactly on the rectangle. -/
lemma nearest_eq_zero_iff (cx cy rx1 ry1 rx2 ry2 : ℝ) (hx : rx1 ≤ rx2) (hy : ry1 ≤ ry2) :
    distToRectNearest (cx, cy) (rx1, ry1, rx2, ry2) = 0 ↔
      (rx1 ≤ cx ∧ cx ≤ rx2) ∧ (ry1 ≤ cy ∧ cy ≤ ry2) := by
  simp only [distToRectNearest]
  rw [hypot_eq_zero_iff, clamp_fixed_iff rx1 rx2 cx hx, clamp_fixed_iff ry1 ry2 cy hy]

/-- C2: with the hand present and a non-negative real distance `d`,
`classify_state` returns DANGER exactly when `d ≤ 60`, WARNING exactly when
`60 < d ≤ 120`, and SAFE exactly when `d > 120`; the three cases are mutually
exclusive and exhaustive. -/
theorem classify_state_thresholds (d : ℝ) (hd : 0 ≤ d) :
    (classify_state d true = HState.DANGER ↔ d ≤ 60) ∧
    (classify_state d true = HState.WARNING ↔ 60 < d ∧ d ≤ 120) ∧
    (classify_state d true = HState.SAFE ↔ 120 < d) := by
  have htrue : ¬(true = false) := by simp
  rcases le_or_lt d 60 with h60 | h60
  · have hv : classify_state d true = HState.DANGER := by
      unfold classify_state
      rw [if_neg htrue, if_pos (Or.inr h60)]
    rw [hv]
    refine ⟨iff_of_true rfl h60, ?_, ?_⟩
    · exact iff_of_false (by simp) (by rintro ⟨h, -⟩; linarith)
    · exact iff_of_false (by simp) (by intro h; linarith)
  · rcases le_or_lt d 120 with h120 | h120
    · have hv : classify_state d true = HState.WARNING := by
        unfold classify_state
        rw [if_neg htrue, if_neg (by push_neg; exact ⟨by linarith, by linarith⟩),
          if_pos ⟨h60, h120⟩]
      rw [hv]
      refine ⟨?_, iff_of_true rfl ⟨h60, h120⟩, ?_⟩
      · exact iff_of_false (by simp) (by intro h; linarith)
      · exact iff_of_false (by simp) (by intro h; linarith)
    · have hv : classify_state d true = HState.SAFE := by
        unfold classify_state
        rw [if_neg htrue, if_neg (by push_neg; exact ⟨by linarith, by linarith⟩),
          if_neg (by push_neg; intro h; linarith), if_pos h120]
      rw [hv]
      refine ⟨?_, ?_, iff_of_true rfl h120⟩
      · exact iff_of_false (by simp) (by intro h; linarith)
      · exact iff_of_false (by simp) (by rintro ⟨-, h⟩; linarith)

theorem classify_state_thresholds_witness :
    (0 : ℝ) ≤ 60 ∧
      ((classify_state 60 true = HState.DANGER ↔ (60 : ℝ) ≤ 60) ∧
        (classify_state 60 true = HState.WARNING ↔ (60 : ℝ) < 60 ∧ (60 : ℝ) ≤ 120) ∧
        (classify_state 60 true = HState.SAFE ↔ (120 : ℝ) < 60)) :=
  ⟨by norm_num, classify_state_thresholds 60 (by norm_num)⟩

/-- C3: with the hand-presence flag false, `classify_state` returns SAFE for
every distance argument — any real, or an absent (`None`) distance; the
distance has no influence on the result. -/
theorem classify_state_absent_safe :
    (∀ distance : Option ℝ, classify_state_opt distance false = Except.ok HState.SAFE) ∧
    (∀ d : ℝ, classify_state d false = HState.SAFE) := by
  constructor
  · intro distance
    unfold classify_state_opt
    simp
  · intro d
    unfold classify_state
    simp

/-- C10: the per-frame state computed by `main.py` (which bypasses the
classifier when no centroid exists) is extensionally equal to calling
`classify_state` uniformly with `hand_present = (centroid is not None)`,
whatever distance value is supplied in the absent case. -/
theorem mainFrameState_eq_uniform (centroid : Option (ℝ × ℝ)) (rect : ℝ × ℝ × ℝ × ℝ)
    (dAbsent : ℝ) :
    mainFrameState centroid rect = uniformFrameState centroid rect dAbsent := by
  cases centroid with
  | none => simp [mainFrameState, uniformFrameState, classify_state]
  | some c => simp [mainFrameState, uniformFrameState]

/-- C7: the threshold branches of `classify_state` are exhaustive, so the
trailing defensive `return 'SAFE'` is unreachable for every real distance and
either flag value; forgetting the instrumentation recovers `classify_state`,
whose embedding (like that of `distance_point_to_rect`) is a total function. -/
theorem classify_state_fallback_unreachable (d : ℝ) (hp : Bool) :
    classify_state_instr d hp ≠ HStateF.FALLBACK ∧
      eraseFallback (classify_state_instr d hp) = classify_state d hp := by
  unfold classify_state_instr classify_state
  split_ifs with h0 h1 h2 h3
  · simp [eraseFallback]
  · simp [eraseFallback]
  · simp [eraseFallback]
  · simp [eraseFallback]
  · exfalso
    push_neg at h1 h2 h3
    linarith [h2 h1.2]

/-- C1: for every point and every valid rectangle (`x2 > x1`, `y2 > y1`),
`distance_point_to_rect` equals the true minimum Euclidean distance to the
rectangle's boundary-or-interior region — the reference nearest-point
(clamping) definition; it vanishes exactly when the point is inside or on the
boundary, and it never overestimates the reference distance. -/
theorem distance_point_to_rect_correct (cx cy rx1 ry1 rx2 ry2 : ℝ)
    (hx : rx1 < rx2) (hy : ry1 < ry2) :
    distance_point_to_rect (cx, cy) (rx1, ry1, rx2, ry2)
        = distToRectNearest (cx, cy) (rx1, ry1, rx2, ry2) ∧
      (distance_point_to_rect (cx, cy) (rx1, ry1, rx2, ry2) = 0 ↔
        rx1 ≤ cx ∧ cx ≤ rx2 ∧ ry1 ≤ cy ∧ cy ≤ ry2) ∧
      distance_point_to_rect (cx, cy) (rx1, ry1, rx2, ry2)
        ≤ distToRectNearest (cx, cy) (rx1, ry1, rx2, ry2) := by
  have he := dist_eq_nearest cx cy rx1 ry1 rx2 ry2 hx.le hy.le
  refine ⟨he, ?_, le_of_eq he⟩
  rw [he, nearest_eq_zero_iff cx cy rx1 ry1 rx2 ry2 hx.le hy.le]
  tauto

theorem distance_point_to_rect_correct_witness :
    (0 : ℝ) < 100 ∧
      (distance_point_to_rect (50, -30) (0, 0, 100, 100)
          = distToRectNearest (50, -30) (0, 0, 100, 100) ∧
        (distance_point_to_rect (50, -30) (0, 0, 100, 100) = 0 ↔
          (0 : ℝ) ≤ 50 ∧ (50 : ℝ) ≤ 100 ∧ (0 : ℝ) ≤ -30 ∧ (-30 : ℝ) ≤ 100) ∧
        distance_point_to_rect (50, -30) (0, 0, 100, 100)
          ≤ distToRectNearest (50, -30) (0, 0, 100, 100)) :=
  ⟨by norm_num,
    distance_point_to_rect_correct 50 (-30) 0 0 100 100 (by norm_num) (by norm_num)⟩

/-- C4: for a point strictly outside both spans of a valid rectangle
(diagonally outside), `distance_point_to_rect` returns the minimum of the
four Euclidean distances to the corners. -/
theorem distance_point_to_rect_corner (cx cy rx1 ry1 rx2 ry2 : ℝ)
    (hx : rx1 < rx2) (hy : ry1 < ry2)
    (hcx : cx < rx1 ∨ rx2 < cx) (hcy : cy < ry1 ∨ ry2 < cy) :
    distance_point_to_rect (cx, cy) (rx1, ry1, rx2, ry2)
      = min (min (min (hypot (cx - rx1) (cy - ry1)) (hypot (cx - rx1) (cy - ry2)))
          (hypot (cx - rx2) (cy - ry1)))
        (hypot (cx - rx2) (cy - ry2)) := by
  have hA : ¬(rx1 ≤ cx ∧ cx ≤ rx2) := by
    rcases hcx with h | h <;> push_neg <;> intro <;> linarith
  have hB : ¬(ry1 ≤ cy ∧ cy ≤ ry2) := by
    rcases hcy with h | h <;> push_neg <;> intro <;> linarith
  simp only [distance_point_to_rect]
  rw [if_neg (fun hin => hA hin.1), if_neg hA, if_neg hB]

theorem distance_point_to_rect_corner_witness :
    (0 : ℝ) < 100 ∧ ((110 : ℝ) < 0 ∨ (100 : ℝ) < 110) ∧
      distance_point_to_rect (110, 110) (0, 0, 100, 100)
        = min (min (min (hypot (110 - 0) (110 - 0)) (hypot (110 - 0) (110 - 100)))
            (hypot (110 - 100) (110 - 0)))
          (hypot (110 - 100) (110 - 100)) ∧
      distance_point_to_rect (110, 110) (0, 0, 100, 100) = hypot 10 10 := by
  have habs : |(10 : ℝ)| ≤ |(110 : ℝ)| := by
    rw [abs_of_nonneg (by norm_num : (0 : ℝ) ≤ 10),
      abs_of_nonneg (by norm_num : (0 : ℝ) ≤ 110)]
    norm_num
  have hc := distance_point_to_rect_corner 110 110 0 0 100 100 (by norm_num) (by norm_num)
    (Or.inr (by norm_num)) (Or.inr (by norm_num))
  refine ⟨by norm_num, Or.inr (by norm_num), hc, ?_⟩
  rw [hc]
  norm_num
  exact ⟨⟨hypot_le_hypot _ _ _ _ habs habs, hypot_le_hypot _ _ _ _ habs (le_refl _)⟩,
    hypot_le_hypot _ _ _ _ (le_refl _) habs⟩

/-- C5: for a point within one axis's span of a valid rectangle but strictly
outside the other's, `distance_point_to_rect` returns the (strictly positive)
axis-aligned gap: the vertical gap `ry1 - cy` or `cy - ry2` when horizontally
within, and the horizontal gap `rx1 - cx` or `cx - rx2` when vertically
within. -/
theorem distance_point_to_rect_axis_gap (cx cy rx1 ry1 rx2 ry2 : ℝ)
    (hx : rx1 < rx2) (hy : ry1 < ry2) :
    ((rx1 ≤ cx ∧ cx ≤ rx2) → (cy < ry1 ∨ ry2 < cy) →
      distance_point_to_rect (cx, cy) (rx1, ry1, rx2, ry2)
          = (if cy < ry1 then ry1 - cy else cy - ry2) ∧
        0 < distance_point_to_rect (cx, cy) (rx1, ry1, rx2, ry2)) ∧
    ((ry1 ≤ cy ∧ cy ≤ ry2) → (cx < rx1 ∨ rx2 < cx) →
      distance_point_to_rect (cx, cy) (rx1, ry1, rx2, ry2)
          = (if cx < rx1 then rx1 - cx else cx - rx2) ∧
        0 < distance_point_to_rect (cx, cy) (rx1, ry1, rx2, ry2)) := by
  constructor
  · intro hA hout
    have hB : ¬(ry1 ≤ cy ∧ cy ≤ ry2) := by
      rcases hout with h | h <;> push_neg <;> intro <;> linarith
    have hval : distance_point_to_rect (cx, cy) (rx1, ry1, rx2, ry2)
        = (if cy < ry1 then ry1 - cy else cy - ry2) := by
      simp only [distance_point_to_rect]
      rw [if_neg (fun hin => hB hin.2), if_pos hA]
    refine ⟨hval, ?_⟩
    rw [hval]
    split_ifs with h
    · linarith
    · rcases hout with ho | ho
      · exact absurd ho h
      · linarith
  · intro hB hout
    have hA : ¬(rx1 ≤ cx ∧ cx ≤ rx2) := by
      rcases hout with h | h <;> push_neg <;> intro <;> linarith
    have hval : distance_point_to_rect (cx, cy) (rx1, ry1, rx2, ry2)
        = (if cx < rx1 then rx1 - cx else cx - rx2) := by
      simp only [distance_point_to_rect]
      rw [if_neg (fun hin => hA hin.1), if_neg hA, if_pos hB]
    refine ⟨hval, ?_⟩
    rw [hval]
    split_ifs with h
    · linarith
    · rcases hout with ho | ho
      · exact absurd ho h
      · linarith

theorem distance_point_to_rect_axis_gap_witness :
    (0 : ℝ) < 100 ∧ ((0 : ℝ) ≤ 50 ∧ (50 : ℝ) ≤ 100) ∧ (-30 : ℝ) < 0 ∧
      distance_point_to_rect (50, -30) (0, 0, 100, 100) = 30 ∧
      0 < distance_point_to_rect (50, -30) (0, 0, 100, 100) := by
  have h := (distance_point_to_rect_axis_gap 50 (-30) 0 0 100 100 (by norm_num)
    (by norm_num)).1 ⟨by norm_num, by norm_num⟩ (Or.inl (by norm_num))
  refine ⟨by norm_num, ⟨by norm_num, by norm_num⟩, by norm_num, ?_, h.2⟩
  rw [h.1, if_pos (by norm_num : (-30 : ℝ) < 0)]
  norm_num

/-- C6: `distance_point_to_rect` is invariant under reflecting both the
point and the rectangle across either coordinate axis. -/
theorem distance_point_to_rect_reflect (cx cy rx1 ry1 rx2 ry2 : ℝ)
    (hx : rx1 < rx2) (hy : ry1 < ry2) :
    distance_point_to_rect (-cx, cy) (-rx2, ry1, -rx1, ry2)
        = distance_point_to_rect (cx, cy) (rx1, ry1, rx2, ry2) ∧
      distance_point_to_rect (cx, -cy) (rx1, -ry2, rx2, -ry1)
        = distance_point_to_rect (cx, cy) (rx1, ry1, rx2, ry2) := by
  constructor
  · rw [dist_eq_nearest (-cx) cy (-rx2) ry1 (-rx1) ry2 (by linarith) hy.le,
      dist_eq_nearest cx cy rx1 ry1 rx2 ry2 hx.le hy.le]
    simp only [distToRectNearest]
    rw [min_neg_neg, max_neg_neg,
      show -cx - -(min rx2 (max cx rx1)) = -(cx - min rx2 (max cx rx1)) by ring,
      hypot_neg_left, clamp_comm rx1 rx2 cx hx.le]
  · rw [dist_eq_nearest cx (-cy) rx1 (-ry2) rx2 (-ry1) hx.le (by linarith),
      dist_eq_nearest cx cy rx1 ry1 rx2 ry2 hx.le hy.le]
    simp only [distToRectNearest]
    rw [min_neg_neg, max_neg_neg,
      show -cy - -(min ry2 (max cy ry1)) = -(cy - min ry2 (max cy ry1)) by ring,
      hypot_neg_right, clamp_comm ry1 ry2 cy hy.le]

theorem distance_point_to_rect_reflect_witness :
    (1 : ℝ) < 100 ∧ (2 : ℝ) < 200 ∧
      (distance_point_to_rect (-110, 110) (-100, 2, -1, 200)
          = distance_point_to_rect (110, 110) (1, 2, 100, 200) ∧
        distance_point_to_rect (110, -110) (1, -200, 100, -2)
          = distance_point_to_rect (110, 110) (1, 2, 100, 200)) :=
  ⟨by norm_num, by norm_num,
    distance_point_to_rect_reflect 110 110 1 2 100 200 (by norm_num) (by norm_num)⟩

/-- C8: starting from the initial rectangle `(220, 140, 420, 340)`, every
finite sequence of W/A/S/D keypresses leaves the rectangle satisfying the
structural invariant `x2 > x1`, `y2 > y1` and within the 640x480 frame
bounds. -/
theorem rect_keys_invariant (ks : List MoveKey) :
    rectInvariant (applyKeys initialRect ks) := by
  have hstep : ∀ (r : RectState) (k : MoveKey),
      rectInvariant r → rectInvariant (moveRect r k) := by
    intro r k h
    obtain ⟨hx1, hx1w, hx2, hx2w, hxlt, hy1, hy1h, hy2, hy2h, hylt⟩ := h
    cases k <;>
      simp only [moveRect, rectInvariant, clamp, FRAME_W, FRAME_H] at * <;>
      omega
  have hfold : ∀ (ks : List MoveKey) (r : RectState),
      rectInvariant r → rectInvariant (applyKeys r ks) := by
    intro ks
    induction ks with
    | nil => intro r h; exact h
    | cons k ks ih =>
      intro r h
      exact ih (moveRect r k) (hstep r k h)
  exact hfold ks initialRect (by simp only [rectInvariant, initialRect, FRAME_W, FRAME_H]; omega)

/-- C9: `distance_point_to_rect` and `classify_state` are deterministic pure
functions of their explicit arguments: in any interleaved sequence of calls
to the two functions, two calls with identical inputs — at any positions,
with any other calls in between — return identical outputs. -/
theorem classifier_calls_pure (cs : List TraceCall) (i j : ℕ)
    (h : cs[i]? = cs[j]?) :
    (execTrace cs)[i]? = (execTrace cs)[j]? := by
  simp only [execTrace, List.getElem?_map, h]

theorem classifier_calls_pure_witness :
    ([TraceCall.classifyCall 50 true, TraceCall.distCall (0, 0) (0, 0, 1, 1),
        TraceCall.classifyCall 50 true][0]? =
      [TraceCall.classifyCall 50 true, TraceCall.distCall (0, 0) (0, 0, 1, 1),
        TraceCall.classifyCall 50 true][2]?) ∧
      ((execTrace [TraceCall.classifyCall 50 true, TraceCall.distCall (0, 0) (0, 0, 1, 1),
          TraceCall.classifyCall 50 true])[0]? =
        (execTrace [TraceCall.classifyCall 50 true, TraceCall.distCall (0, 0) (0, 0, 1, 1),
          TraceCall.classifyCall 50 true])[2]?) :=
  ⟨rfl, classifier_calls_pure _ 0 2 rfl⟩

end HandTracking
